import Mathlib

/-!
# PythonSerialMonitor — verification of the ingestion-and-fan-out core

A shallow embedding, in Lean, of the core pipeline of the
PythonSerialMonitor repository:

* `SerialWorker._read_serial_data` (src/serial_comm/worker.py) — byte-stream
  line framing (the "LineFramer");
* `DataBufferer` (src/serial_comm/data_bufferer.py) — the Multiplexer with a
  display (logger) sink and a recording sink;
* `FileWriterWorker` (src/serial_comm/file_writer_worker.py) — the Recorder
  state machine with verification on finalize;
* `PlotDataProcessor` (src/serial_comm/plot_data_processor.py) — the
  per-channel sliding-window processor.

Python text (`str`) is modelled as `List Char`; a file is its list of
newline-terminated lines; Qt signal emissions are returned explicitly as
lists of emitted values; each slot/method becomes a pure state-transition
function.  Fallible I/O in `FileWriterWorker.finalize_stop` is modelled by
explicit error-injection flags standing for the two `try`/`except` blocks.
-/

/-- A Python `str`: a sequence of characters. -/
abbrev Str := List Char

/-- The whitespace characters stripped by Python's `str.strip()` (ASCII
range, which is all that line-oriented serial data contains). -/
def pyIsSpace (c : Char) : Bool :=
  c = ' ' || c = '\t' || c = '\n' || c = '\r' || c = '\x0b' || c = '\x0c'

/-- Python `str.strip()`: drop leading and trailing whitespace. -/
def pyStrip (s : Str) : Str :=
  ((s.dropWhile pyIsSpace).reverse.dropWhile pyIsSpace).reverse

/-- The last `n` elements of a list (a `collections.deque` with `maxlen`
keeps the newest elements, discarding from the left). -/
def takeRight (n : Nat) (l : List α) : List α := l.drop (l.length - n)

/-! ## LineFramer — `SerialWorker._read_serial_data` (worker.py lines 98–118)

On each poll the worker decodes the newly read bytes, appends them to
`self._line_buffer`, splits the buffer on `'\n'`, keeps the final (possibly
incomplete) piece as the new `_line_buffer`, and appends every stripped
non-empty complete line to `self._data_buffer`.  Python's
`str.split('\n')` is exactly `List.splitOn '\n'` (empty pieces kept, `""`
splitting to `[""]`). -/

/-- One framing step: `(line_buffer, decoded chunk) ↦ (new line_buffer,
records appended to the data buffer, in order)`. -/
def read_serial_data (buf : Str) (chunk : Str) : Str × List Str :=
  let parts := (buf ++ chunk).splitOn '\n'
  (parts.getLastD [], (parts.dropLast.map pyStrip).filter (fun l => !l.isEmpty))

/-- Feed a sequence of decoded chunks through the framer, starting from the
empty `_line_buffer`, collecting all emitted records. -/
def framerRun (chunks : List Str) : Str × List Str :=
  chunks.foldl
    (fun acc chunk =>
      let p := read_serial_data acc.1 chunk
      (p.1, acc.2 ++ p.2))
    ([], [])

/-- The whole stream's newline-split, stripped, non-empty lines (the part of
the stream up to its last newline; the remainder is the retained partial
line). -/
def wholeStreamRecords (s : Str) : List Str :=
  (((s.splitOn '\n').dropLast).map pyStrip).filter (fun l => !l.isEmpty)

/-- The retained partial trailing line of a whole stream. -/
def wholeStreamPending (s : Str) : Str := (s.splitOn '\n').getLastD []

/-! ### Byte-level decoding — `data.decode('utf-8', errors='ignore')`

Each poll decodes the newly read bytes *independently* with
`errors='ignore'`: any byte sequence that is not a complete valid UTF-8
sequence within the chunk (stray continuation bytes, invalid leads, and a
sequence truncated by the end of the chunk) is silently dropped. -/

/-- A UTF-8 continuation byte. -/
def utf8Cont (b : Nat) : Bool := 0x80 ≤ b && b < 0xC0

/-- Valid first continuation byte after a three-byte lead (excluding
overlong encodings and surrogates, as the strict decoder does). -/
def utf8Cont3 (b c1 : Nat) : Bool :=
  if b = 0xE0 then 0xA0 ≤ c1 && c1 < 0xC0
  else if b = 0xED then 0x80 ≤ c1 && c1 < 0xA0
  else utf8Cont c1

/-- Valid first continuation byte after a four-byte lead. -/
def utf8Cont4 (b c1 : Nat) : Bool :=
  if b = 0xF0 then 0x90 ≤ c1 && c1 < 0xC0
  else if b = 0xF4 then 0x80 ≤ c1 && c1 < 0x90
  else utf8Cont c1

/-- Model of `bytes.decode('utf-8', errors='ignore')`: strict UTF-8 decoding that
drops (rather than replaces) every maximal invalid subpart, including a
sequence truncated at the end of the chunk. -/
def decodeUtf8Ignore : List Nat → Str
  | [] => []
  | b :: rest =>
    if b < 0x80 then Char.ofNat b :: decodeUtf8Ignore rest
    else if b < 0xC2 then decodeUtf8Ignore rest
    else if b < 0xE0 then
      match rest with
      | [] => []
      | c1 :: rest1 =>
        if utf8Cont c1 then
          Char.ofNat ((b - 0xC0) * 0x40 + (c1 - 0x80)) :: decodeUtf8Ignore rest1
        else decodeUtf8Ignore (c1 :: rest1)
    else if b < 0xF0 then
      match rest with
      | [] => []
      | c1 :: rest1 =>
        if utf8Cont3 b c1 then
          match rest1 with
          | [] => []
          | c2 :: rest2 =>
            if utf8Cont c2 then
              Char.ofNat ((b - 0xE0) * 0x1000 + (c1 - 0x80) * 0x40 + (c2 - 0x80)) ::
                decodeUtf8Ignore rest2
            else decodeUtf8Ignore (c2 :: rest2)
        else decodeUtf8Ignore (c1 :: rest1)
    else if b < 0xF5 then
      match rest with
      | [] => []
      | c1 :: rest1 =>
        if utf8Cont4 b c1 then
          match rest1 with
          | [] => []
          | c2 :: rest2 =>
            if utf8Cont c2 then
              match rest2 with
              | [] => []
              | c3 :: rest3 =>
                if utf8Cont c3 then
                  Char.ofNat ((b - 0xF0) * 0x40000 + (c1 - 0x80) * 0x1000 +
                      (c2 - 0x80) * 0x40 + (c3 - 0x80)) :: decodeUtf8Ignore rest3
                else decodeUtf8Ignore (c3 :: rest3)
            else decodeUtf8Ignore (c2 :: rest2)
        else decodeUtf8Ignore (c1 :: rest1)
    else decodeUtf8Ignore rest
termination_by l => l.length
decreasing_by all_goals simp <;> omega

/-- Feeding raw byte chunks: each chunk is decoded on its own (as in
`_read_serial_data`) and appended to the line buffer. -/
def framerRunBytes (chunks : List (List Nat)) : Str × List Str :=
  framerRun (chunks.map decodeUtf8Ignore)

/-- Version of `framerRun` with explicit starting buffer and already-emitted records. -/
def framerRunFrom (buf : Str) (es : List Str) (chunks : List Str) : Str × List Str :=
  chunks.foldl
    (fun acc chunk =>
      let p := read_serial_data acc.1 chunk
      (p.1, acc.2 ++ p.2))
    (buf, es)

/-! ## Multiplexer — `DataBufferer` (data_bufferer.py)

Slots become pure state transitions returning the batches emitted on the
`logger_data_ready` and `recording_data_ready` signals.  The flush timers
only determine *when* the flush slots run; a trace of events stands for an
arbitrary interleaving of slot invocations. -/

structure BufState where
  loggerBuffer : List Str
  recordingBuffer : List Str
  isRecording : Bool
  recTimerOn : Bool
deriving DecidableEq, Repr

/-- Constructor `DataBufferer.__init__`: empty buffers, not recording, recording flush
timer not started. -/
def initBuf : BufState :=
  { loggerBuffer := [], recordingBuffer := [], isRecording := false, recTimerOn := false }

/-- Slot `process_raw_data(data_list)`: extend the logger buffer always, the
recording buffer only while recording. -/
def process_raw_data (s : BufState) (dataList : List Str) : BufState :=
  { s with
    loggerBuffer := s.loggerBuffer ++ dataList,
    recordingBuffer :=
      if s.isRecording then s.recordingBuffer ++ dataList else s.recordingBuffer }

/-- Slot `_flush_logger_buffer()`: emit the buffered records as one batch on
`logger_data_ready` (only if non-empty) and clear the buffer. -/
def flush_logger_buffer (s : BufState) : BufState × List (List Str) :=
  if s.loggerBuffer.isEmpty then (s, [])
  else ({ s with loggerBuffer := [] }, [s.loggerBuffer])

/-- Slot `_flush_recording_buffer()`: emit the buffered records as one batch on
`recording_data_ready` (only if non-empty) and clear the buffer. -/
def flush_recording_buffer (s : BufState) : BufState × List (List Str) :=
  if s.recordingBuffer.isEmpty then (s, [])
  else ({ s with recordingBuffer := [] }, [s.recordingBuffer])

/-- Slot `set_recording_status(status)`: set the flag; on activation start the
recording flush timer, on deactivation stop it and flush any remaining
buffered data. -/
def set_recording_status (s : BufState) (status : Bool) : BufState × List (List Str) :=
  let s1 := { s with isRecording := status }
  if status then ({ s1 with recTimerOn := true }, [])
  else flush_recording_buffer { s1 with recTimerOn := false }

/-- Slot `clear_recording_buffer()` (invoked by the window at the start of a new
recording session). -/
def clear_recording_buffer (s : BufState) : BufState :=
  { s with recordingBuffer := [] }

/-- One invocation of a `DataBufferer` data-path slot. -/
inductive BufEvent where
  | ingest (batch : List Str)
  | flushLog
  | flushRec
  | setRec (status : Bool)
deriving DecidableEq, Repr

/-- Dispatch one event, returning the new state and the batches emitted on
the logger and recording signals. -/
def bufStep (s : BufState) : BufEvent → BufState × List (List Str) × List (List Str)
  | .ingest b => (process_raw_data s b, [], [])
  | .flushLog =>
    let p := flush_logger_buffer s
    (p.1, p.2, [])
  | .flushRec =>
    let p := flush_recording_buffer s
    (p.1, [], p.2)
  | .setRec st =>
    let p := set_recording_status s st
    (p.1, [], p.2)

/-- Run a trace of slot invocations, accumulating emitted batches. -/
def bufRun (s : BufState) : List BufEvent → BufState × List (List Str) × List (List Str)
  | [] => (s, [], [])
  | e :: es =>
    let p := bufStep s e
    let q := bufRun p.1 es
    (q.1, p.2.1 ++ q.2.1, p.2.2 ++ q.2.2)

/-- The records of a trace that are ingested while the recording sink is
active. -/
def recordsWhileRecording (s : BufState) : List BufEvent → List Str
  | [] => []
  | e :: es =>
    (match e with
      | .ingest b => if s.isRecording then b else []
      | _ => []) ++ recordsWhileRecording (bufStep s e).1 es

/-- All records ingested in a trace. -/
def allIngested : List BufEvent → List Str
  | [] => []
  | .ingest b :: es => b ++ allIngested es
  | _ :: es => allIngested es

/-! ## Recorder — `FileWriterWorker` (file_writer_worker.py)

The file on disk is its list of newline-terminated lines (each stored
without the trailing `'\n'`; `self._file.write(line + '\n')` appends one
entry).  `self._file.tell() == 0` in append mode holds exactly when the
file is empty.  The two `try`/`except` blocks of `finalize_stop` (closing,
and re-reading for verification) are modelled by the error-injection flags
`closeErr` and `readErr`; the emitted `finished(ok, message)` payloads are
captured structurally. -/

/-- The message payloads of the `finished` signal. -/
inductive FWMsg where
  /-- "Recording started to {file_name}" -/
  | started
  /-- "Error: Recording not started." -/
  | errNotStarted
  /-- "Error closing file: {e}" -/
  | closeFailed
  /-- "Recording stopped, but verification failed: {e}" -/
  | verifyFailed
  /-- "Recording stopped, but no file was open." -/
  | noFileOpen
  /-- "Recording stopped with data loss. Expected: {e}, Actual: {a}" -/
  | lossDetected (expected : Int) (actual : Nat)
  /-- "Recording stopped. {a} lines written." -/
  | stoppedOk (actual : Nat)
deriving DecidableEq, Repr

/-- The signals a `FileWriterWorker` slot can emit, in order. -/
inductive FWSignal where
  | finished (ok : Bool) (msg : FWMsg)
  | allDataWritten
deriving DecidableEq, Repr

structure FWState where
  /-- `self._file` is open (`None` otherwise). -/
  fileOpen : Bool
  /-- The lines currently in the file on disk (writes are flushed after
  every batch). -/
  content : List Str
  /-- `self.start_message_count`. -/
  startCount : Int
  /-- `self.end_message_count` (set by `stop_recording`). -/
  endCount : Int
  /-- `self._stop_pending`. -/
  stopPending : Bool
deriving DecidableEq, Repr

/-- Join `",".join(f"channel{i+1}" for i in range(k))` — built from
`["channel1", ..., "channelk"]`. -/
def intercalateComma : List Str → Str
  | [] => []
  | [x] => x
  | x :: y :: xs => x ++ ',' :: intercalateComma (y :: xs)

/-- Count `len(line.split(','))`: the field count of a record. -/
def numFields (r : Str) : Nat := (r.splitOn ',').length

/-- The header written for `k` channels: `channel1,channel2,...,channelk`. -/
def chanHeader (k : Nat) : Str :=
  intercalateComma ((List.range k).map fun i => "channel".data ++ Nat.toDigits 10 (i + 1))

/-- The verification count: `len(lines) - 1` if the first line starts with
`'channel'`, else `len(lines)`. -/
def actualLineCount (lines : List Str) : Nat :=
  match lines with
  | [] => 0
  | l :: _ => if ("channel".data).isPrefixOf l then lines.length - 1 else lines.length

/-- Slot `start_recording(file_name, start_message_count)`: open the file for
append (keeping any existing content), reset the stop-pending flag, record
the start count.  (The header, if any, is written lazily by
`append_data`.) -/
def start_recording (existing : List Str) (startCnt : Int) : FWState × List FWSignal :=
  ({ fileOpen := true, content := existing, startCount := startCnt, endCount := 0,
     stopPending := false },
   [.finished true .started])

/-- Slot `stop_recording(end_message_count)`: set the stop-pending flag and the
end count; the file is *not* closed here. -/
def stop_recording (s : FWState) (endCnt : Int) : FWState :=
  { s with stopPending := true, endCount := endCnt }

/-- Slot `finalize_stop()`: close the file, then re-open it and compare the
data-line count (excluding a header line) against
`end_message_count - start_message_count`. -/
def finalize_stop (closeErr readErr : Bool) (s : FWState) : FWState × List FWSignal :=
  if s.fileOpen then
    if closeErr then (s, [.finished false .closeFailed])
    else
      let s1 := { s with fileOpen := false, stopPending := false }
      if readErr then (s1, [.finished false .verifyFailed, .allDataWritten])
      else
        let actual := actualLineCount s1.content
        let expected := s1.endCount - s1.startCount
        if (actual : Int) ≠ expected then
          (s1, [.finished false (.lossDetected expected actual), .allDataWritten])
        else
          (s1, [.finished true (.stoppedOk actual), .allDataWritten])
  else (s, [.finished false .noFileOpen])

/-- Slot `append_data(data_lines)`: write the header first if the file is empty
and data is present, then write every record as a line and flush; if a stop
is pending and this batch is empty, finalize now. -/
def append_data (closeErr readErr : Bool) (s : FWState) (dataLines : List Str) :
    FWState × List FWSignal :=
  if ¬ s.fileOpen then (s, [.finished false .errNotStarted])
  else
    let s1 :=
      match s.content, dataLines with
      | [], l :: _ => { s with content := [chanHeader (numFields l)] }
      | _, _ => s
    let s2 := { s1 with content := s1.content ++ dataLines }
    if s2.stopPending ∧ dataLines.isEmpty then finalize_stop closeErr readErr s2
    else (s2, [])

/-- Append a sequence of batches (the error-free path used during an
ordinary recording session). -/
def appendMany (batches : List (List Str)) (s : FWState) : FWState :=
  batches.foldl (fun st b => (append_data false false st b).1) s

/-- The file content produced by appending `rs` (as one or more batches)
to a file holding `c`: a header derived from the first record is prepended
exactly when the file was empty and data arrived. -/
def appendJoin (c rs : List Str) : List Str :=
  match c, rs with
  | [], r :: _ => chanHeader (numFields r) :: rs
  | _, _ => c ++ rs

/-- How many `finished` signals a signal list carries (every outcome is
surfaced as exactly one user-visible status message). -/
def countFinished (sigs : List FWSignal) : Nat :=
  (sigs.filter fun sg =>
    match sg with
    | .finished _ _ => true
    | _ => false).length

/-- A recorder state right after `stop_recording`: file still open, one
data line written under a header, stop pending. -/
def fwPendingEx : FWState :=
  { fileOpen := true, content := ["channel1".data, "7".data], startCount := 0, endCount := 1,
    stopPending := true }

/-- A recorder state ready to verify: one data line, counts 3 → 4. -/
def fwVerifyEx : FWState :=
  { fileOpen := true, content := ["1,2".data], startCount := 3, endCount := 4,
    stopPending := true }

/-! ## WindowProcessor — `PlotDataProcessor` (plot_data_processor.py)

`np.fromstring(data_string, sep=',')` parses comma-separated floats with a
C-locale `strtod`: it repeatedly reads one float (skipping surrounding
whitespace), then expects a `','`; it stops at the first character that can
begin neither a float nor a separator, keeping the values read so far, and
yields no value for text with no leading float at all.  Parsed floats are
kept abstract as their source token (no claim inspects numeric values). -/

/-- ASCII lower-casing, for `strtod`'s case-insensitive `inf`/`nan`. -/
def asciiLower (c : Char) : Char :=
  if 'A' ≤ c && c ≤ 'Z' then Char.ofNat (c.toNat + 32) else c

/-- Case-insensitive literal prefix test. -/
def ciPrefix (pat l : Str) : Bool :=
  ((l.take pat.length).map asciiLower) == pat

/-- Longest leading run of decimal digits, and the remainder. -/
def scanDigits (l : Str) : Str × Str :=
  (l.takeWhile Char.isDigit, l.dropWhile Char.isDigit)

/-- An optional exponent part `e[±]digits`; consumed only when at least one
digit follows (as `strtod` backtracks otherwise). -/
def scanExp (l : Str) : Str × Str :=
  match l with
  | c :: rest =>
    if c = 'e' || c = 'E' then
      match rest with
      | s :: rest2 =>
        if s = '+' || s = '-' then
          let p := scanDigits rest2
          if p.1.isEmpty then ([], l) else (c :: s :: p.1, p.2)
        else
          let p := scanDigits rest
          if p.1.isEmpty then ([], l) else (c :: p.1, p.2)
      | [] => ([], l)
    else ([], l)
  | [] => ([], l)

/-- One `strtod` call: `some (token, rest)` when a float can be read at the
front (after optional whitespace and sign), `none` when no conversion is
possible. -/
def parseFloatPrefix (l : Str) : Option (Str × Str) :=
  let l1 := l.dropWhile pyIsSpace
  let sign : Str × Str :=
    match l1 with
    | c :: rest => if c = '+' || c = '-' then ([c], rest) else ([], l1)
    | [] => ([], l1)
  let l2 := sign.2
  if ciPrefix ("infinity".data) l2 then some (sign.1 ++ l2.take 8, l2.drop 8)
  else if ciPrefix ("inf".data) l2 then some (sign.1 ++ l2.take 3, l2.drop 3)
  else if ciPrefix ("nan".data) l2 then some (sign.1 ++ l2.take 3, l2.drop 3)
  else
    let ip := scanDigits l2
    let fp : Str × Str :=
      match ip.2 with
      | '.' :: r =>
        let d := scanDigits r
        ('.' :: d.1, d.2)
      | _ => ([], ip.2)
    if ip.1.isEmpty && (fp.1.isEmpty || fp.1 == ['.']) then none
    else
      let ep := scanExp fp.2
      some (sign.1 ++ ip.1 ++ fp.1 ++ ep.1, ep.2)

/-- The separator step: skip whitespace, then consume one `','`; anything
else (including end of input) stops the read loop. -/
def skipSep (l : Str) : Option Str :=
  match l.dropWhile pyIsSpace with
  | ',' :: r => some r
  | _ => none

/-- The `fromstring` read loop.  Fuel bounds the recursion; every iteration
consumes at least one character, so `l.length + 1` units always suffice. -/
def fromstringLoop : Nat → Str → List Str
  | 0, _ => []
  | n + 1, l =>
    match parseFloatPrefix l with
    | none => []
    | some (tok, rest) =>
      tok ::
        (match skipSep rest with
         | none => []
         | some rest2 => fromstringLoop n rest2)

/-- Model of `np.fromstring(s, sep=',')`, as the list of parsed value tokens. -/
def pyFromString (s : Str) : List Str := fromstringLoop (s.length + 1) s

/-- An emitted plot payload: `(x_data, list of per-channel y arrays)`. -/
abbrev PlotEmission := List Nat × List (List Str)

structure PState where
  /-- `self.window_size` (the `maxlen` of every deque). -/
  windowSize : Nat
  /-- `self.num_channels` (0 until established by the first parsed record). -/
  numChannels : Nat
  /-- `self.data_buffers`: one bounded window per channel. -/
  dataBuffers : List (List Str)
  /-- `self.x_data`: the parallel sample-index window. -/
  xData : List Nat
  /-- `self.current_sample_index`. -/
  currentSampleIndex : Nat
  /-- `self._incoming_data_buffer` (`maxlen=4000`). -/
  incoming : List Str
deriving DecidableEq, Repr

/-- Constructor `PlotDataProcessor.__init__(window_size)`. -/
def initP (ws : Nat) : PState :=
  { windowSize := ws, numChannels := 0, dataBuffers := [], xData := [],
    currentSampleIndex := 0, incoming := [] }

/-- Push `deque.append` under `maxlen = n`: keep the newest `n`. -/
def pushWindow (n : Nat) (l : List α) (a : α) : List α := takeRight n (l ++ [a])

/-- Slot `process_incoming_data(data_list)`: extend the bounded staging deque
(oldest entries are dropped past 4000). -/
def process_incoming_data (s : PState) (dataList : List Str) : PState :=
  { s with incoming := takeRight 4000 (s.incoming ++ dataList) }

/-- Helper `_initialize_buffers(num_channels)`. -/
def initialize_buffers (s : PState) (n : Nat) : PState :=
  { s with numChannels := n, dataBuffers := List.replicate n [], xData := [] }

/-- The per-record body of `_emit_processed_data`'s loop: parse, establish
the channel count on first success, discard on arity mismatch, otherwise
append one sample to every channel window and one x index. -/
def stepRecord (s : PState) (r : Str) : PState :=
  let values := pyFromString r
  let s1 := if s.numChannels = 0 then initialize_buffers s values.length else s
  if values.length ≠ s1.numChannels then s1
  else
    { s1 with
      dataBuffers := List.zipWith (fun buf v => pushWindow s1.windowSize buf v)
        s1.dataBuffers values,
      xData := pushWindow s1.windowSize s1.xData s1.currentSampleIndex,
      currentSampleIndex := s1.currentSampleIndex + 1 }

/-- The record loop of `_emit_processed_data` over one drained batch. -/
def processRecords (s : PState) (rs : List Str) : PState := rs.foldl stepRecord s

/-- Slot `_emit_processed_data()`: drain the staging deque; if it was empty do
nothing; otherwise process every drained record and (if a channel count is
established) emit the current windows. -/
def emit_processed_data (s : PState) : PState × List PlotEmission :=
  let dataToProcess := s.incoming
  let s1 := { s with incoming := [] }
  if dataToProcess.isEmpty then (s1, [])
  else
    let s2 := processRecords s1 dataToProcess
    if 0 < s2.numChannels then (s2, [(s2.xData, s2.dataBuffers)]) else (s2, [])

/-- Slot `set_window_size(size)`: when `size` is positive and different, rebuild
every deque with the new `maxlen` (keeping the newest entries) and call
`_emit_processed_data`. -/
def set_window_size (s : PState) (size : Nat) : PState × List PlotEmission :=
  if 0 < size ∧ size ≠ s.windowSize then
    emit_processed_data
      { s with
        windowSize := size,
        dataBuffers := s.dataBuffers.map (takeRight size),
        xData := takeRight size s.xData }
  else (s, [])

/-- One slot invocation on the processor. -/
inductive POp where
  | ingest (batch : List Str)
  | tick
  | resize (size : Nat)
deriving DecidableEq, Repr

def pStep (s : PState) : POp → PState × List PlotEmission
  | .ingest b => (process_incoming_data s b, [])
  | .tick => emit_processed_data s
  | .resize n => set_window_size s n

def pRun (s : PState) : List POp → PState × List PlotEmission
  | [] => (s, [])
  | op :: ops =>
    let p := pStep s op
    let q := pRun p.1 ops
    (q.1, p.2 ++ q.2)

/-- The parallel-window invariant: one window per channel, all windows as
long as the x-axis window, everything within the configured capacity. -/
def PInv (s : PState) : Prop :=
  s.dataBuffers.length = s.numChannels ∧
  (∀ b ∈ s.dataBuffers, b.length = s.xData.length) ∧
  s.xData.length ≤ s.windowSize

/-- Every emitted payload pairs every channel array with an x array of the
same length. -/
def emissionsOk (ems : List PlotEmission) : Prop :=
  ∀ e ∈ ems, ∀ y ∈ e.2, y.length = e.1.length

/-- A processor that has been running (2 channels, window 5, four samples
per window) and is currently idle: the staging buffer is empty. -/
def procIdleEx : PState :=
  { windowSize := 5, numChannels := 2,
    dataBuffers := [["1".data, "3".data, "5".data, "7".data], ["2".data, "4".data, "6".data, "8".data]],
    xData := [0, 1, 2, 3], currentSampleIndex := 4, incoming := [] }

/-! ## Sequence counter — `SerialWorker` / `MainWindow` (claim C3)

`MainWindow._setup_serial_worker` connects
`self.worker.message_count_updated` to `MainWindow._update_message_count`,
which stores the shared count read back at recording start/stop.  The
attribute lookup is modelled by name: `SerialWorker` declares exactly the
signal class attributes below, and `_read_serial_data` (modelled above as
`read_serial_data`) maintains only `_line_buffer` and `_data_buffer` — no
counter exists anywhere in the worker. -/

/-- The `Signal` class attributes declared by `SerialWorker`
(worker.py lines 12–13). -/
def serialWorkerSignals : List String := ["data_received", "port_status"]

/-- The worker signal attributes accessed (in order) by
`MainWindow._setup_serial_worker` via `self.worker.<name>.connect(...)`. -/
def mainWindowConnectedWorkerSignals : List String :=
  ["port_status", "data_received", "message_count_updated", "data_received", "data_received"]

/-- A processor with the channel count already fixed at 3 and empty
windows. -/
def procThreeEx : PState :=
  { windowSize := 100, numChannels := 3, dataBuffers := [[], [], []], xData := [],
    currentSampleIndex := 0, incoming := [] }

theorem length_takeRight (n : Nat) (l : List α) :
    (takeRight n l).length = min n l.length := by
  unfold takeRight
  rw [List.length_drop]
  omega

theorem takeRight_all {n : Nat} {l : List α} (h : l.length ≤ n) :
    takeRight n l = l := by
  simp [takeRight, Nat.sub_eq_zero_of_le h]

/-! ### Chunk-composition of the framer (claim C7 machinery) -/

theorem getLastD_cons_of_ne_nil {α : Type} {l : List α} (h : l ≠ []) (a d : α) :
    (a :: l).getLastD d = l.getLastD d := by
  cases l with
  | nil => exact absurd rfl h
  | cons b t => simp [List.getLast?_cons_cons]

theorem dropLast_cons_of_ne_nil {α : Type} {l : List α} (h : l ≠ []) (a : α) :
    (a :: l).dropLast = a :: l.dropLast := by
  cases l with
  | nil => exact absurd rfl h
  | cons b t => rw [List.dropLast_cons₂]

/-- Splitting a concatenation: the pieces of `x` except its trailing one,
then the pieces of `y` with `x`'s trailing piece glued onto the first. -/
theorem splitOnP_append {α : Type} [DecidableEq α] (p : α → Bool) (x y : List α) :
    (x ++ y).splitOnP p =
      (x.splitOnP p).dropLast ++
        ((y.splitOnP p).modifyHead (fun l => (x.splitOnP p).getLastD [] ++ l)) := by
  induction x with
  | nil =>
    cases h : y.splitOnP p with
    | nil => exact absurd h (List.splitOnP_ne_nil p y)
    | cons l ls => simp [h]
  | cons c cs ih =>
    by_cases hc : p c
    · rw [List.cons_append, List.splitOnP_cons, if_pos hc, List.splitOnP_cons, if_pos hc, ih,
        dropLast_cons_of_ne_nil (List.splitOnP_ne_nil p cs),
        getLastD_cons_of_ne_nil (List.splitOnP_ne_nil p cs)]
      rfl
    · rw [List.cons_append, List.splitOnP_cons, if_neg hc, List.splitOnP_cons, if_neg hc, ih]
      cases hS : cs.splitOnP p with
      | nil => exact absurd hS (List.splitOnP_ne_nil p cs)
      | cons s ss =>
        cases ss with
        | nil =>
          cases hT : y.splitOnP p with
          | nil => exact absurd hT (List.splitOnP_ne_nil p y)
          | cons t ts => simp [hT]
        | cons s2 ss2 =>
          simp [List.dropLast_cons₂, getLastD_cons_of_ne_nil (List.cons_ne_nil s2 ss2)]

/-- No piece produced by `splitOnP` contains a separator. -/
theorem splitOnP_no_sep {α : Type} [DecidableEq α] (p : α → Bool) (x : List α) :
    ∀ l ∈ x.splitOnP p, ∀ c ∈ l, ¬ p c := by
  induction x with
  | nil =>
    intro l hl
    rw [List.splitOnP_nil, List.mem_singleton] at hl
    subst hl
    intro c hc
    exact absurd hc (List.not_mem_nil c)
  | cons a as ih =>
    intro l hl
    rw [List.splitOnP_cons] at hl
    by_cases ha : p a
    · rw [if_pos ha, List.mem_cons] at hl
      rcases hl with h | h
      · subst h
        intro c hc
        exact absurd hc (List.not_mem_nil c)
      · exact ih l h
    · rw [if_neg ha] at hl
      cases hS : as.splitOnP p with
      | nil => exact absurd hS (List.splitOnP_ne_nil p as)
      | cons s ss =>
        rw [hS, List.modifyHead_cons, List.mem_cons] at hl
        rcases hl with h | h
        · subst h
          intro c hc
          rcases List.mem_cons.mp hc with h | h
          · subst h; exact ha
          · exact ih s (by rw [hS]; exact List.mem_cons_self s ss) c h
        · exact ih l (by rw [hS]; exact List.mem_cons_of_mem s h)

theorem getLastD_mem {α : Type} {x : List α} (h : x ≠ []) (d : α) :
    x.getLastD d ∈ x := by
  induction x generalizing d with
  | nil => exact absurd rfl h
  | cons a l ih =>
    cases l with
    | nil => simp
    | cons b t =>
      rw [getLastD_cons_of_ne_nil (List.cons_ne_nil b t)]
      exact List.mem_cons_of_mem a (ih (List.cons_ne_nil b t) d)

theorem getLastD_append_of_ne_nil {α : Type} {u v : List α} (h : v ≠ []) (d : α) :
    (u ++ v).getLastD d = v.getLastD d := by
  simp [List.getLast?_append, Option.or_of_isSome (List.getLast?_isSome.mpr h)]

/-- The trailing piece of a split contains no separator, so splitting it
again is the identity. -/
theorem splitOnP_getLastD_self {α : Type} [DecidableEq α] (p : α → Bool) (x : List α) :
    ((x.splitOnP p).getLastD []).splitOnP p = [(x.splitOnP p).getLastD []] :=
  List.splitOnP_eq_single _ _
    (splitOnP_no_sep p x _ (getLastD_mem (List.splitOnP_ne_nil p x) []))

/-- Framing a concatenated chunk equals framing the two chunks in sequence:
the line buffer threads through and the emitted records concatenate. -/
theorem read_serial_data_append (buf a b : Str) :
    read_serial_data buf (a ++ b) =
      ((read_serial_data (read_serial_data buf a).1 b).1,
       (read_serial_data buf a).2 ++ (read_serial_data (read_serial_data buf a).1 b).2) := by
  unfold read_serial_data
  simp only [List.splitOn]
  have hP := List.splitOnP_ne_nil (· == '\n') (buf ++ a)
  have hQ := List.splitOnP_ne_nil (· == '\n')
    (((buf ++ a).splitOnP (· == '\n')).getLastD [] ++ b)
  have key : (buf ++ a ++ b).splitOnP (· == '\n') =
      ((buf ++ a).splitOnP (· == '\n')).dropLast ++
        (((buf ++ a).splitOnP (· == '\n')).getLastD [] ++ b).splitOnP (· == '\n') := by
    rw [splitOnP_append (· == '\n') (buf ++ a) b,
      splitOnP_append (· == '\n') (((buf ++ a).splitOnP (· == '\n')).getLastD []) b,
      splitOnP_getLastD_self]
    simp
  rw [show buf ++ (a ++ b) = buf ++ a ++ b from (List.append_assoc buf a b).symm, key,
    Prod.mk.injEq]
  refine ⟨?_, ?_⟩
  · rw [getLastD_append_of_ne_nil hQ]
  · rw [List.dropLast_append_of_ne_nil _ hQ, List.map_append, List.filter_append]

/-- The retained line buffer never contains a newline. -/
theorem read_serial_data_buf_no_nl (buf chunk : Str) :
    ∀ c ∈ (read_serial_data buf chunk).1, ¬ (c == '\n') = true := by
  unfold read_serial_data
  simp only [List.splitOn]
  exact splitOnP_no_sep (· == '\n') (buf ++ chunk) _
    (getLastD_mem (List.splitOnP_ne_nil _ _) [])

theorem framerRunFrom_eq (chunks : List Str) :
    ∀ (buf : Str) (es : List Str), (∀ c ∈ buf, ¬ (c == '\n') = true) →
      framerRunFrom buf es chunks =
        ((read_serial_data buf chunks.flatten).1,
         es ++ (read_serial_data buf chunks.flatten).2) := by
  induction chunks with
  | nil =>
    intro buf es hbuf
    have hsingle : buf.splitOn '\n' = [buf] := List.splitOnP_eq_single _ _ hbuf
    simp [framerRunFrom, read_serial_data, List.splitOn] at *
    simp [hsingle]
  | cons c cs ih =>
    intro buf es hbuf
    have hstep : framerRunFrom buf es (c :: cs) =
        framerRunFrom (read_serial_data buf c).1 (es ++ (read_serial_data buf c).2) cs := rfl
    rw [hstep, ih _ _ (read_serial_data_buf_no_nl buf c), List.flatten_cons,
      read_serial_data_append buf c cs.flatten]
    simp

/-- C7 (amended): chunk-boundary invariance at character granularity.  For
every partition of the decoded text stream into chunks, feeding the chunks
in order produces exactly the whole stream's newline-split, stripped,
non-empty lines (with the partial trailing line retained in the buffer),
independent of where the chunk boundaries fall. -/
theorem framer_chunk_boundary_invariance (chunks : List Str) :
    (framerRun chunks).2 = wholeStreamRecords chunks.flatten ∧
    (framerRun chunks).1 = wholeStreamPending chunks.flatten := by
  have h := framerRunFrom_eq chunks [] [] (by intro c hc; exact absurd hc (List.not_mem_nil c))
  have hrun : framerRun chunks = framerRunFrom [] [] chunks := rfl
  rw [hrun, h]
  exact ⟨rfl, rfl⟩

/-- C7 counterexample: at *byte* granularity the claim fails, because each
chunk is decoded independently with `errors='ignore'`.  The stream
`b"\xc3\xa9\n"` (the UTF-8 encoding of `"é\n"`) fed whole emits the record
`"é"`; partitioned as `[b"\xc3"], [b"\xa9\n"]` the split multi-byte
character is silently dropped in both chunks and nothing is emitted. -/
theorem framer_byte_chunk_counterexample :
    (framerRunBytes [[0xC3], [0xA9, 0x0A]]).2 = [] ∧
    (framerRunBytes [[0xC3, 0xA9, 0x0A]]).2 = [[Char.ofNat 0xE9]] ∧
    (framerRunBytes [[0xC3], [0xA9, 0x0A]]).2 ≠ (framerRunBytes [[0xC3, 0xA9, 0x0A]]).2 := by
  have h1 : decodeUtf8Ignore [0xC3] = [] := by
    simp [decodeUtf8Ignore]
  have h2 : decodeUtf8Ignore [0xA9, 0x0A] = [Char.ofNat 0x0A] := by
    simp [decodeUtf8Ignore]
  have h3 : decodeUtf8Ignore [0xC3, 0xA9, 0x0A] = [Char.ofNat 0xE9, Char.ofNat 0x0A] := by
    simp [decodeUtf8Ignore, utf8Cont]
  unfold framerRunBytes
  rw [List.map_cons, List.map_cons, List.map_nil, List.map_cons, List.map_nil, h1, h2, h3]
  refine ⟨by decide, by decide, by decide⟩

theorem bufRun_append (es es2 : List BufEvent) (s : BufState) :
    bufRun s (es ++ es2) =
      ((bufRun (bufRun s es).1 es2).1,
       (bufRun s es).2.1 ++ (bufRun (bufRun s es).1 es2).2.1,
       (bufRun s es).2.2 ++ (bufRun (bufRun s es).1 es2).2.2) := by
  induction es generalizing s with
  | nil => simp [bufRun]
  | cons e es ih => simp [bufRun, ih]

theorem recordsWhileRecording_append (es es2 : List BufEvent) : ∀ s : BufState,
    recordsWhileRecording s (es ++ es2) =
      recordsWhileRecording s es ++ recordsWhileRecording (bufRun s es).1 es2 := by
  induction es with
  | nil => intro s; simp [recordsWhileRecording, bufRun]
  | cons e es ih => intro s; simp [recordsWhileRecording, bufRun, ih]

theorem allIngested_append (es es2 : List BufEvent) :
    allIngested (es ++ es2) = allIngested es ++ allIngested es2 := by
  induction es with
  | nil => simp [allIngested]
  | cons e es ih => cases e <;> simp [allIngested, ih]

/-- Conservation for the recording sink: emitted recording batches plus the
still-buffered remainder are exactly the initial buffer plus everything
ingested while recording, in order. -/
theorem buf_rec_flow (es : List BufEvent) : ∀ s : BufState,
    ((bufRun s es).2.2).flatten ++ (bufRun s es).1.recordingBuffer =
      s.recordingBuffer ++ recordsWhileRecording s es := by
  induction es with
  | nil => intro s; simp [bufRun, recordsWhileRecording]
  | cons e es ih =>
    intro s
    cases e with
    | ingest b =>
      by_cases h : s.isRecording <;>
        simp [bufRun, bufStep, recordsWhileRecording, process_raw_data, h, ih]
    | flushLog =>
      simp only [bufRun, bufStep, flush_logger_buffer]
      split <;> simp [recordsWhileRecording, bufStep, flush_logger_buffer, *, ih]
    | flushRec =>
      simp only [bufRun, bufStep, flush_recording_buffer]
      split <;>
        simp_all [recordsWhileRecording, bufStep, flush_recording_buffer, ih, List.isEmpty_iff]
    | setRec st =>
      cases st with
      | true =>
        simp [bufRun, bufStep, set_recording_status, recordsWhileRecording, ih]
      | false =>
        simp only [bufRun, bufStep, set_recording_status, flush_recording_buffer,
          Bool.false_eq_true, if_false]
        split <;>
          simp_all [recordsWhileRecording, bufStep, set_recording_status,
            flush_recording_buffer, ih, List.isEmpty_iff]

/-- Conservation for the display (logger) sink: emitted logger batches plus
the still-buffered remainder are exactly the initial buffer plus everything
ingested, in order. -/
theorem buf_log_flow (es : List BufEvent) : ∀ s : BufState,
    ((bufRun s es).2.1).flatten ++ (bufRun s es).1.loggerBuffer =
      s.loggerBuffer ++ allIngested es := by
  induction es with
  | nil => intro s; simp [bufRun, allIngested]
  | cons e es ih =>
    intro s
    cases e with
    | ingest b =>
      simp [bufRun, bufStep, allIngested, process_raw_data, ih]
    | flushLog =>
      simp only [bufRun, bufStep, flush_logger_buffer]
      split <;> simp_all [allIngested, ih, List.isEmpty_iff]
    | flushRec =>
      simp only [bufRun, bufStep, flush_recording_buffer]
      split <;> simp_all [allIngested, ih]
    | setRec st =>
      cases st with
      | true => simp [bufRun, bufStep, set_recording_status, allIngested, ih]
      | false =>
        simp only [bufRun, bufStep, set_recording_status, flush_recording_buffer,
          Bool.false_eq_true, if_false]
        split <;> simp_all [allIngested, ih]

/-- C1: flush-on-stop / no recording loss.  Deactivating the recording sink
emits everything still buffered as one recording batch and leaves the
buffer empty; consequently, over any trace of ingests and flushes that ends
with `set_recording_status(False)`, the concatenation of all emitted
recording batches is exactly the sequence of records ingested while the
sink was active — nothing is dropped. -/
theorem multiplexer_flush_on_stop :
    (∀ s : BufState,
        (set_recording_status s false).2 =
          (if s.recordingBuffer.isEmpty then [] else [s.recordingBuffer]) ∧
        (set_recording_status s false).1.recordingBuffer = []) ∧
    (∀ es : List BufEvent,
        ((bufRun initBuf (es ++ [BufEvent.setRec false])).2.2).flatten =
          recordsWhileRecording initBuf es ∧
        (bufRun initBuf (es ++ [BufEvent.setRec false])).1.recordingBuffer = []) := by
  have hset : ∀ s : BufState,
      (set_recording_status s false).2 =
        (if s.recordingBuffer.isEmpty then [] else [s.recordingBuffer]) ∧
      (set_recording_status s false).1.recordingBuffer = [] := by
    intro s
    simp only [set_recording_status, flush_recording_buffer, Bool.false_eq_true, if_false]
    split <;> simp_all [List.isEmpty_iff]
  refine ⟨hset, fun es => ?_⟩
  have hflow := buf_rec_flow (es ++ [BufEvent.setRec false]) initBuf
  have hrw := recordsWhileRecording_append es [BufEvent.setRec false] initBuf
  have htail : recordsWhileRecording (bufRun initBuf es).1 [BufEvent.setRec false] = [] := by
    simp [recordsWhileRecording]
  have hfinal : (bufRun initBuf (es ++ [BufEvent.setRec false])).1.recordingBuffer = [] := by
    rw [bufRun_append]
    have : (bufRun (bufRun initBuf es).1 [BufEvent.setRec false]).1 =
        (set_recording_status (bufRun initBuf es).1 false).1 := by
      simp [bufRun, bufStep]
    simp only [this]
    exact (hset _).2
  refine ⟨?_, hfinal⟩
  rw [hrw, htail, List.append_nil] at hflow
  rw [hfinal, List.append_nil] at hflow
  simpa [initBuf] using hflow

/-- C9: display-sink exactly-once, in-order delivery.  Over any trace
followed by a final logger flush, the concatenation of the batches emitted
on the display (logger) output is exactly the sequence of all ingested
records in ingestion order — no loss, duplication or reordering — and the
logger buffer is left empty. -/
theorem display_sink_exactly_once (es : List BufEvent) :
    ((bufRun initBuf (es ++ [BufEvent.flushLog])).2.1).flatten = allIngested es ∧
    (bufRun initBuf (es ++ [BufEvent.flushLog])).1.loggerBuffer = [] := by
  have hflow := buf_log_flow (es ++ [BufEvent.flushLog]) initBuf
  have hall : allIngested (es ++ [BufEvent.flushLog]) = allIngested es := by
    rw [allIngested_append]
    simp [allIngested]
  have hfinal : (bufRun initBuf (es ++ [BufEvent.flushLog])).1.loggerBuffer = [] := by
    rw [bufRun_append]
    have hstep : (bufRun (bufRun initBuf es).1 [BufEvent.flushLog]).1 =
        (flush_logger_buffer (bufRun initBuf es).1).1 := by
      simp [bufRun, bufStep]
    simp only [hstep, flush_logger_buffer]
    split <;> simp_all [List.isEmpty_iff]
  refine ⟨?_, hfinal⟩
  rw [hall] at hflow
  rw [hfinal, List.append_nil] at hflow
  simpa [initBuf] using hflow

theorem appendJoin_nil_right (c : List Str) : appendJoin c [] = c := by
  cases c <;> simp [appendJoin]

theorem appendJoin_assoc (c b rs : List Str) :
    appendJoin (appendJoin c b) rs = appendJoin c (b ++ rs) := by
  cases c with
  | nil =>
    cases b with
    | nil => simp [appendJoin]
    | cons r bs => simp [appendJoin]
  | cons x xs =>
    cases b with
    | nil => simp [appendJoin]
    | cons r bs => simp [appendJoin]

/-- Running `append_data` on an open file with no stop pending: pure write, no
signal, no close. -/
theorem append_data_open {s : FWState} (hOpen : s.fileOpen = true)
    (hPend : s.stopPending = false) (b : List Str) :
    append_data false false s b = ({ s with content := appendJoin s.content b }, []) := by
  obtain ⟨fo, c, sc, ec, sp⟩ := s
  simp only at hOpen hPend
  subst hOpen
  subst hPend
  unfold append_data
  cases c <;> cases b <;> simp [appendJoin]

theorem appendMany_spec (batches : List (List Str)) :
    ∀ s : FWState, s.fileOpen = true → s.stopPending = false →
      appendMany batches s = { s with content := appendJoin s.content batches.flatten } := by
  induction batches with
  | nil => intro s _ _; simp [appendMany, appendJoin_nil_right]
  | cons b bs ih =>
    intro s hOpen hPend
    have hstep : appendMany (b :: bs) s = appendMany bs (append_data false false s b).1 := rfl
    rw [hstep, append_data_open hOpen hPend]
    rw [ih { s with content := appendJoin s.content b } (by simp [hOpen]) (by simp [hPend])]
    simp [appendJoin_assoc]

/-- A record always has at least one comma-separated field. -/
theorem numFields_pos (r : Str) : 0 < numFields r := by
  rw [numFields, List.splitOn]
  exact List.length_pos.mpr (List.splitOnP_ne_nil _ r)

theorem intercalateComma_cons (x : Str) (xs : List Str) :
    ∃ t, intercalateComma (x :: xs) = x ++ t := by
  cases xs with
  | nil => exact ⟨[], by simp [intercalateComma]⟩
  | cons y ys => exact ⟨',' :: intercalateComma (y :: ys), rfl⟩

theorem isPrefixOf_self_append {α : Type} [BEq α] [LawfulBEq α] (l t : List α) :
    l.isPrefixOf (l ++ t) = true := by
  induction l with
  | nil => simp
  | cons a as ih => simp [List.isPrefixOf, ih]

/-- The generated header starts with `channel`, so the verification step
always discounts it. -/
theorem chanHeader_startswith_channel {k : Nat} (hk : 0 < k) :
    ("channel".data).isPrefixOf (chanHeader k) = true := by
  obtain ⟨j, rfl⟩ : ∃ j, k = j + 1 := ⟨k - 1, by omega⟩
  unfold chanHeader
  rw [List.range_succ_eq_map, List.map_cons]
  obtain ⟨t, ht⟩ := intercalateComma_cons _ _
  rw [ht, List.append_assoc]
  exact isPrefixOf_self_append _ _

/-- C2: recording round-trip.  Starting a session on a freshly created
empty file at sequence `S`, appending `N` same-arity records (in any
batching), stopping at `S + N` and finalizing yields a closed file whose
first line is the header `channel1,...,channelK` followed by the `N`
records verbatim, and a success (`Verified`) outcome reporting the actual
count `N`. -/
theorem recording_round_trip (batches : List (List Str)) (S : Int) (K : Nat)
    (hne : batches.flatten ≠ [])
    (harity : ∀ r ∈ batches.flatten, numFields r = K) :
    finalize_stop false false
        (stop_recording (appendMany batches (start_recording [] S).1)
          (S + batches.flatten.length)) =
      ({ fileOpen := false, content := chanHeader K :: batches.flatten, startCount := S,
         endCount := S + batches.flatten.length, stopPending := false },
       [.finished true (.stoppedOk batches.flatten.length), .allDataWritten]) := by
  obtain ⟨r, rs, hrec⟩ : ∃ r rs, batches.flatten = r :: rs := by
    cases h : batches.flatten with
    | nil => exact absurd h hne
    | cons a l => exact ⟨a, l, rfl⟩
  have hK : 0 < K := by
    have hmem : r ∈ batches.flatten := by
      rw [hrec]; exact List.mem_cons_self r rs
    have := numFields_pos r
    rw [harity r hmem] at this
    exact this
  have hcontent : appendJoin ([] : List Str) batches.flatten =
      chanHeader K :: batches.flatten := by
    rw [hrec]
    have hmem : r ∈ batches.flatten := by
      rw [hrec]; exact List.mem_cons_self r rs
    simp [appendJoin, harity r hmem]
  have happend := appendMany_spec batches (start_recording [] S).1 rfl rfl
  have hstate : stop_recording (appendMany batches (start_recording [] S).1)
      (S + batches.flatten.length) =
      { fileOpen := true, content := chanHeader K :: batches.flatten, startCount := S,
        endCount := S + batches.flatten.length, stopPending := true } := by
    rw [happend]
    show stop_recording
        { fileOpen := true, content := appendJoin [] batches.flatten, startCount := S,
          endCount := 0, stopPending := false } (S + batches.flatten.length) = _
    rw [hcontent]
    rfl
  rw [hstate]
  have hactual : actualLineCount (chanHeader K :: batches.flatten) =
      batches.flatten.length := by
    rw [show actualLineCount (chanHeader K :: batches.flatten) =
        (if ("channel".data).isPrefixOf (chanHeader K) = true
         then (chanHeader K :: batches.flatten).length - 1
         else (chanHeader K :: batches.flatten).length) from rfl]
    rw [chanHeader_startswith_channel hK]
    simp
  have hcond : ¬ ((batches.flatten.length : Int) ≠ S + batches.flatten.length - S) := by
    push_neg
    ring
  unfold finalize_stop
  simp only [if_true, if_false, Bool.false_eq_true, ite_false, ite_true]
  rw [hactual, if_neg hcond]

/-- C4: finalize verification outcomes.  On an open file, `finalize_stop`
closes the file, compares the data-line count (excluding a header line)
with `end - start`, and reports success with the actual count on equality
or a data-loss warning naming both counts on a mismatch; an injected I/O
failure during close or during verification is surfaced as a failure
message; and on every state and failure combination exactly one `finished`
status message is emitted (nothing escapes as an exception). -/
theorem finalize_verification (s : FWState) (closeErr readErr : Bool)
    (hOpen : s.fileOpen = true) :
    (closeErr = true →
      finalize_stop closeErr readErr s = (s, [.finished false .closeFailed])) ∧
    (closeErr = false → readErr = true →
      finalize_stop closeErr readErr s =
        ({ s with fileOpen := false, stopPending := false },
         [.finished false .verifyFailed, .allDataWritten])) ∧
    (closeErr = false → readErr = false →
      ((actualLineCount s.content : Int) = s.endCount - s.startCount →
        finalize_stop closeErr readErr s =
          ({ s with fileOpen := false, stopPending := false },
           [.finished true (.stoppedOk (actualLineCount s.content)), .allDataWritten])) ∧
      ((actualLineCount s.content : Int) ≠ s.endCount - s.startCount →
        finalize_stop closeErr readErr s =
          ({ s with fileOpen := false, stopPending := false },
           [.finished false (.lossDetected (s.endCount - s.startCount)
              (actualLineCount s.content)), .allDataWritten]))) ∧
    (∀ t : FWState, ∀ ce re : Bool, countFinished (finalize_stop ce re t).2 = 1) := by
  refine ⟨?_, ?_, ?_, ?_⟩
  · intro hce
    subst hce
    unfold finalize_stop
    rw [if_pos hOpen, if_pos rfl]
  · intro hce hre
    subst hce
    subst hre
    unfold finalize_stop
    rw [if_pos hOpen, if_neg (by simp), if_pos rfl]
  · intro hce hre
    subst hce
    subst hre
    unfold finalize_stop
    rw [if_pos hOpen, if_neg (by simp), if_neg (by simp)]
    constructor
    · intro heq
      rw [if_neg (by simpa using heq)]
    · intro hne
      rw [if_pos hne]
  · intro t ce re
    unfold finalize_stop
    split_ifs <;> simp [countFinished, apply_ite]

/-- C5 counterexample: the claim says *no* `append_data` call ever closes
the file, but on a stop-pending state an `append_data` call with an empty
batch invokes `finalize_stop` and closes it. -/
theorem append_data_closes_file :
    fwPendingEx.fileOpen = true ∧ fwPendingEx.stopPending = true ∧
    (append_data false false fwPendingEx []).1.fileOpen = false := by
  decide

/-- C5 (amended): while a stop is pending, every *non-empty* appended batch
is still written in full (no data refused, no signal, file stays open); an
`append_data` call with an *empty* batch triggers the pending finalize and
closes the file. -/
theorem stop_pending_append_behaviour (s : FWState) (hOpen : s.fileOpen = true)
    (hPend : s.stopPending = true) :
    (∀ dataLines : List Str, dataLines ≠ [] →
      (append_data false false s dataLines).1.fileOpen = true ∧
      (append_data false false s dataLines).1.content = appendJoin s.content dataLines ∧
      (append_data false false s dataLines).2 = []) ∧
    ((append_data false false s []).1.fileOpen = false ∧
     (append_data false false s []).1.content = s.content) := by
  obtain ⟨fo, c, sc, ec, sp⟩ := s
  simp only at hOpen hPend
  subst hOpen
  subst hPend
  constructor
  · intro dataLines hne
    cases dataLines with
    | nil => exact absurd rfl hne
    | cons d ds =>
      unfold append_data
      cases c <;> simp [appendJoin]
  · unfold append_data finalize_stop
    split_ifs <;> simp_all [apply_ite]

/-- Witness for C2 at a concrete session: two batches, two records of
arity 2, started at sequence 5. -/
theorem recording_round_trip_witness :
    ([["1,2".data], ["3,4".data]] : List (List Str)).flatten ≠ [] ∧
    finalize_stop false false
        (stop_recording (appendMany [["1,2".data], ["3,4".data]] (start_recording [] 5).1)
          (5 + ([["1,2".data], ["3,4".data]] : List (List Str)).flatten.length)) =
      ({ fileOpen := false,
         content := chanHeader 2 :: ([["1,2".data], ["3,4".data]] : List (List Str)).flatten,
         startCount := 5,
         endCount := 5 + ([["1,2".data], ["3,4".data]] : List (List Str)).flatten.length,
         stopPending := false },
       [.finished true (.stoppedOk ([["1,2".data], ["3,4".data]] : List (List Str)).flatten.length),
        .allDataWritten]) :=
  ⟨by decide, recording_round_trip [["1,2".data], ["3,4".data]] 5 2 (by decide) (by decide)⟩

/-- Witness for C4 at a concrete state: clean finalize reports success with
the actual count. -/
theorem finalize_verification_witness :
    (actualLineCount fwVerifyEx.content : Int) = fwVerifyEx.endCount - fwVerifyEx.startCount ∧
    finalize_stop false false fwVerifyEx =
      ({ fwVerifyEx with fileOpen := false, stopPending := false },
       [.finished true (.stoppedOk (actualLineCount fwVerifyEx.content)), .allDataWritten]) :=
  ⟨by decide,
   ((finalize_verification fwVerifyEx false false rfl).2.2.1 rfl rfl).1 (by decide)⟩

/-- Witness for the amended C5 at a concrete state: a non-empty append
keeps the file open, an empty one closes it. -/
theorem stop_pending_append_witness :
    (append_data false false fwPendingEx ["8".data]).1.fileOpen = true ∧
    (append_data false false fwPendingEx []).1.fileOpen = false :=
  ⟨((stop_pending_append_behaviour fwPendingEx rfl rfl).1 ["8".data] (by decide)).1,
   (stop_pending_append_behaviour fwPendingEx rfl rfl).2.1⟩

theorem length_pushWindow (n : Nat) (l : List α) (a : α) :
    (pushWindow n l a).length = min n (l.length + 1) := by
  unfold pushWindow
  rw [length_takeRight]
  simp

theorem emissionsOk_append {a b : List PlotEmission}
    (ha : emissionsOk a) (hb : emissionsOk b) : emissionsOk (a ++ b) := by
  intro e he
  rcases List.mem_append.mp he with h | h
  · exact ha e h
  · exact hb e h

theorem mem_zipWith_pushWindow {ws L : Nat} :
    ∀ (bufs : List (List Str)) (vals : List Str),
      (∀ b ∈ bufs, b.length = L) →
      ∀ b ∈ List.zipWith (fun buf v => pushWindow ws buf v) bufs vals,
        b.length = min ws (L + 1) := by
  intro bufs
  induction bufs with
  | nil => intro vals _ b hb; simp at hb
  | cons x xs ih =>
    intro vals hlen b hb
    cases vals with
    | nil => simp at hb
    | cons v vs =>
      rw [List.zipWith_cons_cons] at hb
      rcases List.mem_cons.mp hb with h | h
      · subst h
        rw [length_pushWindow, hlen x (List.mem_cons_self x xs)]
      · exact ih vs (fun b' hb' => hlen b' (List.mem_cons_of_mem x hb')) b h

/-- The accept branch of `stepRecord` preserves the invariant. -/
theorem accept_branch_inv {s1 : PState} {values : List Str} (h : PInv s1)
    (hlen : values.length = s1.numChannels) :
    PInv { s1 with
      dataBuffers := List.zipWith (fun buf v => pushWindow s1.windowSize buf v)
        s1.dataBuffers values,
      xData := pushWindow s1.windowSize s1.xData s1.currentSampleIndex,
      currentSampleIndex := s1.currentSampleIndex + 1 } := by
  obtain ⟨h1, h2, h3⟩ := h
  refine ⟨?_, ?_, ?_⟩
  · simp [List.length_zipWith, h1, hlen]
  · intro b hb
    rw [length_pushWindow]
    exact mem_zipWith_pushWindow s1.dataBuffers values h2 b hb
  · rw [length_pushWindow]
    exact Nat.min_le_left _ _

theorem initialize_buffers_inv (s : PState) (n : Nat) :
    PInv (initialize_buffers s n) := by
  refine ⟨by simp [initialize_buffers], ?_, by simp [initialize_buffers]⟩
  intro b hb
  simp only [initialize_buffers] at hb ⊢
  rw [List.eq_of_mem_replicate hb]
  simp

theorem stepRecord_inv {s : PState} (h : PInv s) (r : Str) : PInv (stepRecord s r) := by
  unfold stepRecord
  dsimp only
  by_cases h0 : s.numChannels = 0
  · rw [if_pos h0]
    by_cases hlen : (pyFromString r).length ≠ (initialize_buffers s (pyFromString r).length).numChannels
    · rw [if_pos hlen]
      exact initialize_buffers_inv s _
    · rw [if_neg hlen]
      push_neg at hlen
      exact accept_branch_inv (initialize_buffers_inv s _) hlen
  · rw [if_neg h0]
    by_cases hlen : (pyFromString r).length ≠ s.numChannels
    · rw [if_pos hlen]
      exact h
    · rw [if_neg hlen]
      push_neg at hlen
      exact accept_branch_inv h hlen

theorem processRecords_inv {s : PState} (h : PInv s) (rs : List Str) :
    PInv (processRecords s rs) := by
  induction rs generalizing s with
  | nil => exact h
  | cons r rs ih => exact ih (stepRecord_inv h r)

theorem emit_processed_data_inv {s : PState} (h : PInv s) :
    PInv (emit_processed_data s).1 ∧ emissionsOk (emit_processed_data s).2 := by
  unfold emit_processed_data
  dsimp only
  have hdrained : PInv { s with incoming := ([] : List Str) } := by
    obtain ⟨h1, h2, h3⟩ := h
    exact ⟨h1, h2, h3⟩
  by_cases he : s.incoming.isEmpty
  · rw [if_pos he]
    exact ⟨hdrained, by intro e hme; simp at hme⟩
  · rw [if_neg he]
    have h2 := processRecords_inv hdrained s.incoming
    by_cases hn : 0 < (processRecords { s with incoming := [] } s.incoming).numChannels
    · rw [if_pos hn]
      refine ⟨h2, ?_⟩
      intro e hme
      rw [List.mem_singleton] at hme
      subst hme
      intro y hy
      exact h2.2.1 y hy
    · rw [if_neg hn]
      exact ⟨h2, by intro e hme; simp at hme⟩

theorem set_window_size_inv {s : PState} (h : PInv s) (n : Nat) :
    PInv (set_window_size s n).1 ∧ emissionsOk (set_window_size s n).2 := by
  unfold set_window_size
  by_cases hg : 0 < n ∧ n ≠ s.windowSize
  · rw [if_pos hg]
    refine emit_processed_data_inv ?_
    obtain ⟨h1, h2, _⟩ := h
    refine ⟨by simp [h1], ?_, ?_⟩
    · intro b hb
      simp only [List.mem_map] at hb
      obtain ⟨b0, hb0, rfl⟩ := hb
      rw [length_takeRight, length_takeRight, h2 b0 hb0]
    · rw [length_takeRight]
      exact Nat.min_le_left _ _
  · rw [if_neg hg]
    exact ⟨h, by intro e hme; simp at hme⟩

theorem process_incoming_data_inv {s : PState} (h : PInv s) (b : List Str) :
    PInv (process_incoming_data s b) := by
  obtain ⟨h1, h2, h3⟩ := h
  refine ⟨?_, ?_, ?_⟩ <;> simpa [process_incoming_data] using ‹_›

theorem pStep_inv {s : PState} (h : PInv s) (op : POp) :
    PInv (pStep s op).1 ∧ emissionsOk (pStep s op).2 := by
  cases op with
  | ingest b =>
    refine ⟨process_incoming_data_inv h b, ?_⟩
    intro e hme
    simp [pStep] at hme
  | tick => exact emit_processed_data_inv h
  | resize n => exact set_window_size_inv h n

/-- C10: the parallel-window invariant holds in every reachable state of
the processor, and every emitted `(x, ys)` payload pairs channel arrays
with an x array of equal length. -/
theorem window_parallel_invariant (ws : Nat) (ops : List POp) :
    PInv (pRun (initP ws) ops).1 ∧ emissionsOk (pRun (initP ws) ops).2 := by
  have hinit : PInv (initP ws) := by
    refine ⟨rfl, ?_, by simp [initP]⟩
    intro b hb
    simp [initP] at hb
  suffices hgen : ∀ (ops : List POp) (s : PState), PInv s →
      PInv (pRun s ops).1 ∧ emissionsOk (pRun s ops).2 from hgen ops (initP ws) hinit
  intro ops
  induction ops with
  | nil =>
    intro s hs
    exact ⟨hs, by intro e hme; simp [pRun] at hme⟩
  | cons op ops ih =>
    intro s hs
    have hstep := pStep_inv hs op
    have hrest := ih (pStep s op).1 hstep.1
    exact ⟨hrest.1, emissionsOk_append hstep.2 hrest.2⟩

/-- C6 failing input: `set_window_size(3)` on an idle processor rebuilds
every window with the new capacity and correctly keeps the
`min(3, 4) = 3` newest samples, but emits *nothing*: the re-emit call
returns early because the staging buffer is empty, so observers do not see
the new capacity until new data arrives. -/
theorem resize_does_not_reemit :
    (set_window_size procIdleEx 3).2 = [] ∧
    (set_window_size procIdleEx 3).1.windowSize = 3 ∧
    (set_window_size procIdleEx 3).1.xData = [1, 2, 3] ∧
    (set_window_size procIdleEx 3).1.dataBuffers =
      [["3".data, "5".data, "7".data], ["4".data, "6".data, "8".data]] := by
  decide

/-- The reject branch of `stepRecord`: with the channel count established,
a record whose parse does not yield exactly that many values leaves the
state untouched. -/
theorem stepRecord_reject {s : PState} {r : Str} (h0 : s.numChannels ≠ 0)
    (hlen : (pyFromString r).length ≠ s.numChannels) : stepRecord s r = s := by
  unfold stepRecord
  dsimp only
  rw [if_neg h0, if_pos hlen]

/-- The accept branch of `stepRecord`: a record parsing to exactly one
value per channel appends one sample to every window and one x index. -/
theorem stepRecord_accept {s : PState} {r : Str} (h0 : s.numChannels ≠ 0)
    (hlen : (pyFromString r).length = s.numChannels) :
    stepRecord s r =
      { s with
        dataBuffers := List.zipWith (fun buf v => pushWindow s.windowSize buf v)
          s.dataBuffers (pyFromString r),
        xData := pushWindow s.windowSize s.xData s.currentSampleIndex,
        currentSampleIndex := s.currentSampleIndex + 1 } := by
  unfold stepRecord
  dsimp only
  rw [if_neg h0, if_neg (by simp [hlen])]

/-- C8: malformed-record handling.  In general, once the channel count is
established, a record whose parse does not yield exactly one value per
channel is discarded alone and the state is untouched; in particular, with
the channel count fixed at 3, the batch `["1,2,3", "bad", "4,5,3"]`
processes exactly like `["1,2,3", "4,5,3"]`: two samples are appended to
every channel window, two x indices are appended, the sample counter
advances by exactly 2, and nothing is raised. -/
theorem malformed_record_discarded :
    (∀ (t : PState) (r : Str), 0 < t.numChannels →
        (pyFromString r).length ≠ t.numChannels → stepRecord t r = t) ∧
    (∀ s : PState, s.numChannels = 3 → s.dataBuffers.length = 3 →
      processRecords s ["1,2,3".data, "bad".data, "4,5,3".data] =
        processRecords s ["1,2,3".data, "4,5,3".data] ∧
      (processRecords s ["1,2,3".data, "bad".data, "4,5,3".data]).currentSampleIndex =
        s.currentSampleIndex + 2 ∧
      (processRecords s ["1,2,3".data, "bad".data, "4,5,3".data]).xData =
        pushWindow s.windowSize (pushWindow s.windowSize s.xData s.currentSampleIndex)
          (s.currentSampleIndex + 1) ∧
      (processRecords s ["1,2,3".data, "bad".data, "4,5,3".data]).dataBuffers =
        List.zipWith
          (fun buf p => pushWindow s.windowSize (pushWindow s.windowSize buf p.1) p.2)
          s.dataBuffers
          [("1".data, "4".data), ("2".data, "5".data), ("3".data, "3".data)]) := by
  have hp1 : pyFromString ("1,2,3".data) = ["1".data, "2".data, "3".data] := by decide
  have hpb : pyFromString ("bad".data) = [] := by decide
  have hp3 : pyFromString ("4,5,3".data) = ["4".data, "5".data, "3".data] := by decide
  constructor
  · intro t r hpos hlen
    exact stepRecord_reject (by omega) hlen
  · intro s h3 hlen3
    obtain ⟨ws, nc, bufs, x, idx, inc⟩ := s
    simp only at h3 hlen3
    subst h3
    obtain ⟨b0, b1, b2, hb⟩ : ∃ b0 b1 b2, bufs = [b0, b1, b2] := by
      cases bufs with
      | nil => simp at hlen3
      | cons a l =>
        cases l with
        | nil => simp at hlen3
        | cons a2 l2 =>
          cases l2 with
          | nil => simp at hlen3
          | cons a3 l3 =>
            cases l3 with
            | nil => exact ⟨a, a2, a3, rfl⟩
            | cons a4 l4 => simp at hlen3
    subst hb
    have h30 : (3 : Nat) ≠ 0 := by decide
    have hs1 : stepRecord ⟨ws, 3, [b0, b1, b2], x, idx, inc⟩ ("1,2,3".data) =
        ⟨ws, 3,
         [pushWindow ws b0 ("1".data), pushWindow ws b1 ("2".data), pushWindow ws b2 ("3".data)],
         pushWindow ws x idx, idx + 1, inc⟩ := by
      rw [stepRecord_accept h30 (by rw [hp1]; rfl), hp1]
      rfl
    have hs2 : stepRecord
        ⟨ws, 3,
         [pushWindow ws b0 ("1".data), pushWindow ws b1 ("2".data), pushWindow ws b2 ("3".data)],
         pushWindow ws x idx, idx + 1, inc⟩ ("bad".data) =
        ⟨ws, 3,
         [pushWindow ws b0 ("1".data), pushWindow ws b1 ("2".data), pushWindow ws b2 ("3".data)],
         pushWindow ws x idx, idx + 1, inc⟩ := by
      refine stepRecord_reject h30 ?_
      rw [hpb]
      simp
    have hs3 : stepRecord
        ⟨ws, 3,
         [pushWindow ws b0 ("1".data), pushWindow ws b1 ("2".data), pushWindow ws b2 ("3".data)],
         pushWindow ws x idx, idx + 1, inc⟩ ("4,5,3".data) =
        ⟨ws, 3,
         [pushWindow ws (pushWindow ws b0 ("1".data)) ("4".data),
          pushWindow ws (pushWindow ws b1 ("2".data)) ("5".data),
          pushWindow ws (pushWindow ws b2 ("3".data)) ("3".data)],
         pushWindow ws (pushWindow ws x idx) (idx + 1), idx + 1 + 1, inc⟩ := by
      rw [stepRecord_accept h30 (by rw [hp3]; rfl), hp3]
      rfl
    have hrun : processRecords ⟨ws, 3, [b0, b1, b2], x, idx, inc⟩
        ["1,2,3".data, "bad".data, "4,5,3".data] =
        stepRecord (stepRecord (stepRecord ⟨ws, 3, [b0, b1, b2], x, idx, inc⟩
          ("1,2,3".data)) ("bad".data)) ("4,5,3".data) := rfl
    have hrun2 : processRecords ⟨ws, 3, [b0, b1, b2], x, idx, inc⟩
        ["1,2,3".data, "4,5,3".data] =
        stepRecord (stepRecord ⟨ws, 3, [b0, b1, b2], x, idx, inc⟩
          ("1,2,3".data)) ("4,5,3".data) := rfl
    refine ⟨?_, ?_, ?_, ?_⟩
    · rw [hrun, hrun2, hs1, hs2]
    · rw [hrun, hs1, hs2, hs3]
    · rw [hrun, hs1, hs2, hs3]
    · rw [hrun, hs1, hs2, hs3]
      rfl

/-- C3 (failing evaluation): the window connects to a
`message_count_updated` signal that `SerialWorker` never declares, so the
sequence counter the claim describes does not exist in the worker: no
record emission increments any counter, and the recorder's
start/stop counts can never be updated. -/
theorem sequence_counter_missing :
    "message_count_updated" ∈ mainWindowConnectedWorkerSignals ∧
    "message_count_updated" ∉ serialWorkerSignals := by
  decide

/-- Witness for C8 at a concrete state. -/
theorem malformed_record_discarded_witness :
    stepRecord procThreeEx ("bad".data) = procThreeEx ∧
    processRecords procThreeEx ["1,2,3".data, "bad".data, "4,5,3".data] =
      processRecords procThreeEx ["1,2,3".data, "4,5,3".data] :=
  ⟨malformed_record_discarded.1 procThreeEx ("bad".data) (by decide) (by decide),
   (malformed_record_discarded.2 procThreeEx rfl rfl).1⟩

/-- Witness for C10 on a concrete run (the spec's end-to-end example
records, window size 2). -/
theorem window_parallel_invariant_witness :
    PInv (pRun (initP 2) [POp.ingest ["10,20".data, "11,21".data, "12,22".data], POp.tick]).1 ∧
    emissionsOk
      (pRun (initP 2) [POp.ingest ["10,20".data, "11,21".data, "12,22".data], POp.tick]).2 :=
  window_parallel_invariant 2 [POp.ingest ["10,20".data, "11,21".data, "12,22".data], POp.tick]
